import Mathlib

/-!
Verification of the additive-Schwarz patch construction in
`firedrake/preconditioners/asm.py` (classes `ASMPatchPC`, `ASMStarPC`,
`ASMVankaPC`, `ASMLinesmoothPC`, `ASMExtrudedStarPC` and the helper
`nested_dissection`).

The mesh topology (`DMPlex`) and dof layout (`PETSc.Section`) are process-local
read-only collaborators; they are modelled as explicit function arguments:
`tc useCone p` stands for `mesh_dm.getTransitiveClosure(p, useCone=useCone)[0]`,
`ghostLabel p` for `mesh_dm.getLabelValue("pyop2_ghost", p)`, and per-field
data is carried by small structures.  Machine integers are modelled by `Nat`
and `Int` (the quantities involved are small indices; no overflow is possible
at the modelled sizes).
-/

namespace AsmPatch

/-- Seed enumeration shared by all four strategies
(`ASMStarPC.get_patches` lines 145-149, `ASMVankaPC.get_patches` lines
209-212, `ASMLinesmoothPC.get_patches` lines 272-275,
`ASMExtrudedStarPC.get_patches` lines 367-372): iterate
`for seed in range(start, end)` over the chosen stratum and `continue`
whenever `mesh_dm.getLabelValue("pyop2_ghost", seed) != -1`; every surviving
seed then undergoes point-set expansion.  `a`/`b` are the stratum bounds. -/
def ownedSeeds (a b : Nat) (ghostLabel : Nat → Int) : List Nat :=
  (List.range' a (b - a)).filter (fun s => ghostLabel s == -1)

/-- `ASMStarPC.get_patches` line 152: the Star patch point list for a seed is
`mesh_dm.getTransitiveClosure(seed, useCone=False)[0]` (the topological star;
the subsequent `nested_dissection` call only permutes it). -/
def starPoints (tc : Bool → Nat → List Nat) (seed : Nat) : List Nat :=
  tc false seed

/-- `ASMVankaPC.get_patches` lines 214-219, translated exactly as written:

    star, _ = mesh_dm.getTransitiveClosure(seed, useCone=False)
    pt_array = set()
    for pt in star.tolist():
        closure, _ = mesh_dm.getTransitiveClosure(seed, useCone=True)
        pt_array.update(closure.tolist())

Note that the loop body passes `seed` (not the loop variable `pt`) to
`getTransitiveClosure`, so each iteration adds the closure of the seed. -/
def vankaPointSet (tc : Bool → Nat → List Nat) (seed : Nat) : Finset Nat :=
  ((tc false seed).flatMap (fun _pt => tc true seed)).toFinset

/-- Modelled from the spec: "compute the star of `e` then, for every point
in that star, take its closure using cone=true and union all resulting point
sets (duplicates removed)" — the closure of the star.  Kept separate from
`vankaPointSet` (which is the literal translation of the code) so the two can
be compared. -/
def closureOfStarSpec (tc : Bool → Nat → List Nat) (seed : Nat) : Finset Nat :=
  ((tc false seed).flatMap (fun pt => tc true pt)).toFinset

/-- A concrete interval-mesh topology in DMPlex numbering: one cell `0` whose
cone is the two vertices `1` and `2`.  `tcInterval useCone p` returns the
transitive closure of `p`: with `useCone = true` the closure (downward), with
`useCone = false` the star (upward); the closure of a point always contains
the point itself. -/
def tcInterval : Bool → Nat → List Nat :=
  fun useCone p =>
    if useCone then
      (if p = 0 then [0, 1, 2] else [p])
    else
      (if p = 0 then [0] else [p, 0])

/-- `numpy.arange(a, b)` for natural bounds: the integers in `[a, b)`. -/
def arange (a b : Nat) : List Nat :=
  List.range' a (b - a)

/-- `numpy.intersect1d(pt_array, adjacency, return_indices=True)[1]`:
the indices into `pt_array` of the (first occurrences of the) values common
to both lists, listed in increasing order of the common value (numpy returns
the sorted common values and their indices in the first array). -/
def intersectIndices (pts neigh : List Nat) : List Nat :=
  (List.insertionSort (fun a b => a ≤ b)
      ((pts.filter (fun v => neigh.contains v)).dedup)).map
    (fun v => pts.indexOf v)

/-- `numpy.cumsum` of a list of naturals. -/
def cumsum (l : List Nat) : List Nat :=
  (List.range l.length).map (fun i => (l.take (i + 1)).sum)

/-- `nested_dissection(mesh_dm, pt_array)` (lines 287-295).  The induced
subgraph is assembled CSR-style and handed to the PETSc ordering routine
`G.getOrdering(PETSc.Mat.OrderingType.ND)`, an external collaborator modelled
as the argument `ordering` (receiving the matrix size and the CSR row/col
arrays, returning `rperm.getIndices()`).  When `pt_array` is empty the list
comprehension is empty and `numpy.concatenate(subgraph)` raises `ValueError`
("need at least one array to concatenate"); that failure is modelled as
`none`. -/
def nested_dissection (ordering : Nat → List Nat → List Nat → List Nat)
    (adjacency : Nat → List Nat) (pt_array : List Nat) : Option (List Nat) :=
  let num_pt := pt_array.length
  let subgraph := pt_array.map (fun p => intersectIndices pt_array (adjacency p))
  match subgraph with
  | [] => none
  | _ :: _ =>
    let cols := subgraph.flatten
    let rows := cumsum (0 :: subgraph.map List.length)
    let idx := ordering num_pt rows cols
    some (idx.map (fun i => pt_array.getD i 0))

/-- The message of the `ValueError` raised by `ASMVankaPC.get_patches`
(line 194); `pre` stands for `self.prefix`. -/
def vankaMsg (pre : String) : String :=
  "Must set exactly one of " ++ pre ++ "construct_dim or " ++ pre ++ "construct_codim"

/-- `ASMVankaPC.get_patches` lines 191-194: `depth` is the value of the
`construct_dim` option and `height` of `construct_codim` (both default `-1`,
meaning unset); raise iff both are `-1` or neither is. -/
def vankaCheckOptions (pre : String) (depth height : Int) : Except String Unit :=
  if (depth == -1 && height == -1) || (depth != -1 && height != -1) then
    Except.error (vankaMsg pre)
  else
    Except.ok ()

/-- Whether a result is a configuration error whose message names both the
`construct_dim` and the `construct_codim` option keys. -/
def namesBothKeys : Except String Unit → Bool
  | Except.error m =>
      decide ("construct_dim".toList <:+: m.toList) &&
      decide ("construct_codim".toList <:+: m.toList)
  | Except.ok _ => false

/-- Per-field dof data used by the Star/Vanka extraction loop: `getDof p` and
`getOffset p` are `section.getDof(p)` / `section.getOffset(p)` of the field's
default section, `valueSize` is `W.value_size`, and `localIses` is the cached
`V.dof_dset.local_ises[i].indices` array for the field. -/
structure DofField where
  valueSize : Nat
  getDof : Nat → Nat
  getOffset : Nat → Nat
  localIses : List Nat

/-- The contribution of point `p` for field `W`: nothing when `dof <= 0`,
otherwise the entries of the field's local index array at positions
`numpy.arange(off*W.value_size, W.value_size*(off + dof))`. -/
def dofRanges (W : DofField) (p : Nat) : List Nat :=
  if W.getDof p ≤ 0 then []
  else
    (arange (W.getOffset p * W.valueSize)
        (W.valueSize * (W.getOffset p + W.getDof p))).map
      (fun j => W.localIses.getD j 0)

/-- Dof extraction shared by `ASMStarPC.get_patches` (lines 156-166) and
`ASMVankaPC.get_patches` (lines 222-232), translated imperatively:
`indices = []`, outer loop `for (i, W) in enumerate(V)`, inner loop
`for p in pt_array`, `continue` on `dof <= 0`, otherwise
`indices.extend(V_local_ises_indices[i][W_indices])`. -/
def getDofIndices (V : List DofField) (pt_array : List Nat) : List Nat :=
  V.foldl (fun indices W =>
    pt_array.foldl (fun indices p =>
      if W.getDof p ≤ 0 then indices
      else
        indices ++ (arange (W.getOffset p * W.valueSize)
            (W.valueSize * (W.getOffset p + W.getDof p))).map
          (fun j => W.localIses.getD j 0)) indices) []

/-- Modelled from the spec: "For each point, for each field in declared field
order, skip if dof count is 0; otherwise append `value_size * count`
contiguous local indices starting at `value_size * offset`" — i.e. the POINT
loop outermost and the field loop within each point.  Kept separate from
`getDofIndices` (the literal translation of the code) so the two orderings can
be compared. -/
def assembleSpecOrder (V : List DofField) (pt_array : List Nat) : List Nat :=
  pt_array.flatMap (fun p => V.flatMap (fun W => dofRanges W p))

/-- Events of `ASMPatchPC.initialize` (lines 33-91), in program order:
`get_patches` is invoked at line 43 (`ises = self.get_patches(V)`); the
backend option is read at line 51 and dispatched afterwards, the TinyASM
availability check being lines 72-73. -/
inductive InitEvent where
  | callGetPatches
  | setupPetscBackend
  | setupTinyasmBackend
  | raiseMissingTinyasm (msg : String)
  | raiseUnknownBackend (backend : String)
deriving DecidableEq

/-- The remediation message of the `ValueError` raised at line 73. -/
def tinyasmMissingMsg : String :=
  "To use the TinyASM backend you need to install firedrake with TinyASM (firedrake-update --tinyasm)"

/-- Event trace of `ASMPatchPC.initialize` for a given backend option value
and TinyASM availability (`have_tinyasm`, line 11-15 import probe):
the `get_patches` call (line 43) always happens first, then the backend
dispatch (lines 55-88). -/
def initEventTrace (backend : String) (have_tinyasm : Bool) : List InitEvent :=
  [InitEvent.callGetPatches] ++
  (if backend = "petscasm" then [InitEvent.setupPetscBackend]
   else if backend = "tinyasm" then
     (if have_tinyasm then [InitEvent.setupTinyasmBackend]
      else [InitEvent.raiseMissingTinyasm tinyasmMissingMsg])
   else [InitEvent.raiseUnknownBackend backend])

/-- Whether an event is the raising of an error. -/
def isRaiseEvent : InitEvent → Bool
  | InitEvent.raiseMissingTinyasm _ => true
  | InitEvent.raiseUnknownBackend _ => true
  | _ => false

/-- Whether an event is the `get_patches` call (the start of patch work). -/
def isGetPatchesEvent : InitEvent → Bool
  | InitEvent.callGetPatches => true
  | _ => false

/-- The claim's temporal property: the trace contains a raise, and that raise
occurs strictly before any `get_patches` event. -/
def failsBeforePatchWork (tr : List InitEvent) : Bool :=
  match tr.findIdx? isRaiseEvent, tr.findIdx? isGetPatchesEvent with
  | some r, some g => Nat.blt r g
  | some _, none => true
  | _, _ => false

/-- `ASMExtrudedStarPC.get_patches` lines 378-384: the neighbour planes
consulted for vertical layer `k` of `nlayers` layers. -/
def planesFor (k nlayers : Nat) : List Int :=
  if k = 0 then [1, 0]
  else if k = nlayers - 1 then [-1, 0]
  else [-1, 1, 0]

/-- Per-field data of the extruded path: `blayerOffset p`, `baseOff p` and
`baseDof p` are `basemeshlayeroffsets[i][p]`, `basemeshoff[i][p]` and
`basemeshdof[i][p]` from `get_basemesh_nodes` (lines 298-328), and `iset` is
the cached `V_ises[i]` local index array. -/
structure ExtrudedField where
  valueSize : Nat
  blayerOffset : Nat → Int
  baseOff : Nat → Int
  baseDof : Nat → Int
  iset : List Nat

/-- Python's builtin `min` on two integers. -/
def pymin (a b : Int) : Int :=
  if a ≤ b then a else b

/-- Python's builtin `max` on two integers. -/
def pymax (a b : Int) : Int :=
  if a ≤ b then b else a

/-- Lines 392-417: for each plane and each point (skipping points with
`blayer_offset <= 0`), the `(begin, end)` dof sub-range selected at vertical
offset `plane` of layer `k`.  The source stores `slice(value_size*begin,
value_size*end)`; the `value_size` scaling is applied at emission in
`fieldStep` and `sdof` entries are `end - begin`, exactly as in the source. -/
def fieldSlices (W : ExtrudedField) (points : List Nat) (planes : List Int)
    (k : Int) : List (Int × Int) :=
  planes.flatMap (fun plane =>
    points.filterMap (fun p =>
      if W.blayerOffset p ≤ 0 then none
      else
        if plane == 0 then
          some (W.baseOff p + k * W.blayerOffset p,
                W.baseOff p + k * W.blayerOffset p + W.baseDof p)
        else
          some (W.baseOff p + (pymin k (k + plane)) * W.blayerOffset p + W.baseDof p,
                W.baseOff p + (pymax k (k + plane)) * W.blayerOffset p)))

/-- The comparison used by a stable ascending `numpy.argsort(v,
kind='mergesort')`: sort the positions by value, breaking ties by position.
This lexicographic comparison is a total order on the (duplicate-free)
position range, so ANY sort computes the same unique sorted permutation as
numpy's stable merge sort; the model sorts with the structurally recursive
`List.insertionSort`. -/
def lexAsc (v : List Int) (i j : Nat) : Bool :=
  decide (v.getD i 0 < v.getD j 0) || (v.getD i 0 == v.getD j 0 && Nat.ble i j)

/-- `numpy.argsort(v, kind='mergesort')` (line 420): stable ascending argsort
(see `lexAsc` for why insertion sort computes it exactly). -/
def argsortStable (v : List Int) : List Nat :=
  List.insertionSort (fun i j => lexAsc v i j = true) (List.range v.length)

/-- Modelled from the spec: the concatenation order the spec asserts —
"descending size, with ties between equal-size sub-ranges broken by a stable
sort (equal-size ranges keep their original relative order)", i.e. a stable
DESCENDING argsort.  Kept separate from the code's `(argsortStable v).reverse`
so the two orders can be compared. -/
def lexDescSpec (v : List Int) (i j : Nat) : Bool :=
  decide (v.getD j 0 < v.getD i 0) || (v.getD i 0 == v.getD j 0 && Nat.ble i j)

/-- Modelled from the spec: stable descending argsort (see `lexDescSpec`). -/
def argsortDescSpec (v : List Int) : List Nat :=
  List.insertionSort (fun i j => lexDescSpec v i j = true) (List.range v.length)

/-- Basic numpy slicing `l[b:e]` with `Int` bounds: negative bounds wrap by
the length once, then both bounds are clamped to `[0, len]`. -/
def npSlice (l : List Nat) (b e : Int) : List Nat :=
  let n : Int := l.length
  let lo := pymax 0 (pymin n (if b < 0 then b + n else b))
  let hi := pymax 0 (pymin n (if e < 0 then e + n else e))
  (List.range' lo.toNat (hi - lo).toNat).map (fun j => l.getD j 0)

/-- Result of processing one field inside the per-layer loop of
`ASMExtrudedStarPC.get_patches` (lines 388-423). `kNext` is the value of the
Python variable `k` after the field is processed: the emission loop
`for k in reversed(perm)` reuses the LAYER variable `k` as its loop variable,
so after a field with a nonempty `perm` the variable holds `perm[0]` (the last
value taken by the reversed iteration); with an empty `perm` the loop body
never runs and `k` is unchanged. -/
structure FieldResult where
  slices : List (Int × Int)
  sdof : List Int
  perm : List Nat
  emitted : List Nat
  kNext : Int

/-- One iteration of `for i, W in enumerate(V)` (lines 388-423) at current
variable value `k`: collect the slices and their sizes, stably argsort the
sizes, then emit `iset[value_size*begin : value_size*end]` following
`reversed(perm)`. -/
def fieldStep (points : List Nat) (planes : List Int) (W : ExtrudedField)
    (k : Int) : FieldResult :=
  let slices := fieldSlices W points planes k
  let sdof := slices.map (fun r => r.2 - r.1)
  let perm := argsortStable sdof
  let emitted := perm.reverse.flatMap (fun j =>
    npSlice W.iset (W.valueSize * (slices.getD j (0, 0)).1)
      (W.valueSize * (slices.getD j (0, 0)).2))
  let kNext := match perm with
    | [] => k
    | j :: _ => (j : Int)
  ⟨slices, sdof, perm, emitted, kNext⟩

/-- Modelled from the spec: the per-field emission the spec asserts — the
sub-ranges concatenated following the stable DESCENDING argsort of their
sizes (`argsortDescSpec`). -/
def fieldEmittedSpecOrder (points : List Nat) (planes : List Int)
    (W : ExtrudedField) (k : Int) : List Nat :=
  let slices := fieldSlices W points planes k
  let sdof := slices.map (fun r => r.2 - r.1)
  (argsortDescSpec sdof).flatMap (fun j =>
    npSlice W.iset (W.valueSize * (slices.getD j (0, 0)).1)
      (W.valueSize * (slices.getD j (0, 0)).2))

/-- The field loop of one `(seed, layer)` patch (lines 386-423): the planes
are computed from the layer index before the field loop; the Python variable
`k` is threaded through the fields because each field's emission loop
`for k in reversed(perm)` overwrites it (see `FieldResult.kNext`). -/
def layerFieldResults (fields : List ExtrudedField) (points : List Nat)
    (nlayers k : Nat) : List FieldResult :=
  (fields.foldl (fun acc W =>
      let r := fieldStep points (planesFor k nlayers) W acc.2
      (acc.1 ++ [r], r.kNext))
    (([] : List FieldResult), (k : Int))).1

/-- The flat index list of one `(seed, layer)` patch: the concatenation of
every field's emitted indices (`indices.extend(iset[slices[k]])`). -/
def extrudedLayerIndices (fields : List ExtrudedField) (points : List Nat)
    (nlayers k : Nat) : List Nat :=
  ((layerFieldResults fields points nlayers k).map FieldResult.emitted).flatten

/-- Two identical scalar fields (value size 1, layer stride 1, one dof per
layer, column bottom offset 0) over a single base point, used to exercise the
extruded path with more than one field. -/
def fieldA : ExtrudedField :=
  ⟨1, fun _ => 1, fun _ => 0, fun _ => 1, [10, 11, 12, 13]⟩

/-- Second field of the two-field example; distinct local index array. -/
def fieldB : ExtrudedField :=
  ⟨1, fun _ => 1, fun _ => 0, fun _ => 1, [20, 21, 22, 23]⟩

/-- One scalar field over two base points whose plane-0 sub-ranges at layer 0
have equal size, used to observe the tie-breaking order of the size sort
(base offsets 0 and 10, layer stride 1, one dof per layer). -/
def fieldTies : ExtrudedField :=
  ⟨1, fun _ => 1, fun p => if p = 0 then 0 else 10, fun _ => 1,
    List.range 12⟩

/-- A ghost-label function for a concrete stratum: point 2 is a ghost
(label value `1`), every other point is owned (label value `-1`). -/
def glDemo : Nat → Int :=
  fun s => if s = 2 then 1 else -1

/-- Two-field, two-point dof layout used to compare extraction orders:
field 0 owns local indices 100/101, field 1 owns 200/201; every point carries
one dof, point `p` at offset `p`. -/
def dofFieldsDemo : List DofField :=
  [⟨1, fun _ => 1, fun p => p, [100, 101]⟩,
   ⟨1, fun _ => 1, fun p => p, [200, 201]⟩]

end AsmPatch

namespace AsmPatch

/-- Applying `numpy`-style indexing over the full index range reproduces the
list. -/
theorem map_getD_range (l : List Nat) :
    (List.range l.length).map (fun i => l.getD i 0) = l := by
  apply List.ext_getElem
  · simp
  · intro n h1 h2
    simp only [List.getElem_map, List.getElem_range]
    exact List.getD_eq_getElem l 0 h2

/-- Fancy-indexing a list by a permutation of its index range permutes it. -/
theorem getD_map_perm (l : List Nat) (idx : List Nat)
    (h : idx.Perm (List.range l.length)) :
    (idx.map (fun i => l.getD i 0)).Perm l := by
  have hm := h.map (fun i => l.getD i 0)
  rwa [map_getD_range] at hm

/-- Folding list appends equals an initial segment plus a `flatMap`. -/
theorem foldl_append_flatMap {α β : Type} (f : α → List β) :
    ∀ (l : List α) (init : List β),
      l.foldl (fun acc x => acc ++ f x) init = init ++ l.flatMap f := by
  intro l
  induction l with
  | nil => intro init; simp
  | cons a as ih => intro init; simp [ih]

/-- The inner (per-point) loop of the extraction accumulates exactly the
per-point contributions of the field. -/
theorem inner_foldl_eq (W : DofField) (pts : List Nat) (init : List Nat) :
    pts.foldl (fun indices p =>
      if W.getDof p ≤ 0 then indices
      else
        indices ++ (arange (W.getOffset p * W.valueSize)
            (W.valueSize * (W.getOffset p + W.getDof p))).map
          (fun j => W.localIses.getD j 0)) init
    = init ++ pts.flatMap (fun p => dofRanges W p) := by
  have hfun : (fun (indices : List Nat) (p : Nat) =>
      if W.getDof p ≤ 0 then indices
      else
        indices ++ (arange (W.getOffset p * W.valueSize)
            (W.valueSize * (W.getOffset p + W.getDof p))).map
          (fun j => W.localIses.getD j 0))
      = fun indices p => indices ++ dofRanges W p := by
    funext indices p
    by_cases hc : W.getDof p ≤ 0 <;> simp [dofRanges, hc]
  rw [hfun]
  exact foldl_append_flatMap _ pts init

/-- `lexAsc` unfolded to a proposition. -/
theorem lexAsc_eq_true_iff (v : List Int) (i j : Nat) :
    lexAsc v i j = true ↔
      (v.getD i 0 < v.getD j 0 ∨ (v.getD i 0 = v.getD j 0 ∧ i ≤ j)) := by
  simp [lexAsc, Nat.ble_eq]

/-- The stable-argsort comparison is transitive. -/
theorem lexAsc_trans (v : List Int) :
    ∀ a b c, lexAsc v a b = true → lexAsc v b c = true → lexAsc v a c = true := by
  intro a b c hab hbc
  rw [lexAsc_eq_true_iff] at hab hbc ⊢
  omega

/-- The stable-argsort comparison is total. -/
theorem lexAsc_total (v : List Int) :
    ∀ a b, (lexAsc v a b || lexAsc v b a) = true := by
  intro a b
  rw [Bool.or_eq_true, lexAsc_eq_true_iff, lexAsc_eq_true_iff]
  omega

/-- The stable ascending argsort is sorted under its comparison. -/
theorem argsortStable_pairwise (v : List Int) :
    (argsortStable v).Pairwise (fun i j => lexAsc v i j = true) := by
  unfold argsortStable
  haveI htot : IsTotal Nat (fun i j => lexAsc v i j = true) := by
    constructor
    intro a b
    exact Bool.or_eq_true_iff.mp (lexAsc_total v a b)
  haveI htr : IsTrans Nat (fun i j => lexAsc v i j = true) := by
    constructor
    intro a b c hab hbc
    exact lexAsc_trans v a b c hab hbc
  exact List.sorted_insertionSort _ _

/-- Claim C1: in `ASMVankaPC.get_patches`, the patch point set for a seed is
claimed to be the closure of the star of the seed; the code instead passes
`seed` (not the star point `pt`) to the closure query, producing just the
closure of the seed.  On the interval mesh, seeding at vertex `1`, the code
yields `{1}` while the closure of the star is `{0, 1, 2}`. -/
theorem vanka_patch_is_closure_of_seed :
    vankaPointSet tcInterval 1 = ({1} : Finset Nat) ∧
    closureOfStarSpec tcInterval 1 = ({0, 1, 2} : Finset Nat) ∧
    vankaPointSet tcInterval 1 ≠ closureOfStarSpec tcInterval 1 := by
  decide

/-- Claim C2: the Vanka patch point set is claimed to contain the Star patch
point set for the same seed and stratum; on the interval mesh seeded at
vertex `1` the Star point set is `{1, 0}` while the Vanka point set is `{1}`
(the closure of the seed, by the slip noted in C1), so the inclusion fails. -/
theorem vanka_not_superset_of_star :
    (starPoints tcInterval 1).toFinset = ({1, 0} : Finset Nat) ∧
    ¬ ((starPoints tcInterval 1).toFinset ⊆ vankaPointSet tcInterval 1) := by
  decide

/-- Claim C3 (counterexample): a size-0 input does not return trivially; the
empty list comprehension makes `numpy.concatenate(subgraph)` raise
`ValueError` (modelled as `none`), for any ordering routine and adjacency. -/
theorem nested_dissection_empty_fails :
    nested_dissection (fun n _ _ => List.range n) (fun _ => []) [] = none := rfl

/-- Claim C3 (amended): for every input point sequence of size at least 1,
and any external graph-ordering routine satisfying its contract (it returns a
permutation of `[0, n)`), `nested_dissection` returns a sequence of the same
length with the same multiset of entries as the input; a size-0 input instead
fails in `numpy.concatenate`. -/
theorem nested_dissection_perm
    (ordering : Nat → List Nat → List Nat → List Nat)
    (adjacency : Nat → List Nat) (pt_array : List Nat)
    (hne : pt_array ≠ [])
    (hord : ∀ n rows cols, (ordering n rows cols).Perm (List.range n)) :
    ∃ out, nested_dissection ordering adjacency pt_array = some out ∧
      out.Perm pt_array ∧ out.length = pt_array.length := by
  obtain ⟨a, as, rfl⟩ := List.exists_cons_of_ne_nil hne
  refine ⟨_, rfl, ?_, ?_⟩
  · exact getD_map_perm _ _ (hord _ _ _)
  · exact (getD_map_perm _ _ (hord _ _ _)).length_eq

/-- Witness for C3's amended theorem at size 3 with the reversal ordering. -/
theorem nested_dissection_perm_witness :
    (([5, 7, 9] : List Nat) ≠ []) ∧
    (∃ out,
      nested_dissection (fun n _ _ => (List.range n).reverse)
        (fun p => [p]) [5, 7, 9] = some out ∧
      out.Perm [5, 7, 9] ∧ out.length = ([5, 7, 9] : List Nat).length) :=
  ⟨by decide,
   nested_dissection_perm _ _ _ (by decide)
     (fun n _ _ => (List.range n).reverse_perm)⟩

/-- Claim C4: `ASMVankaPC.get_patches` raises a configuration error naming
both `construct_dim` and `construct_codim` iff both options are set or
neither is (with `-1` meaning unset); moreover `(-1, -1)` errors, `(0, -1)`
is accepted, and `(2, 1)` errors. -/
theorem vanka_options_exactly_one (depth height : Int) :
    (namesBothKeys (vankaCheckOptions "pc_vanka_" depth height) = true ↔
      ((depth = -1 ∧ height = -1) ∨ (depth ≠ -1 ∧ height ≠ -1))) ∧
    namesBothKeys (vankaCheckOptions "pc_vanka_" (-1) (-1)) = true ∧
    vankaCheckOptions "pc_vanka_" 0 (-1) = Except.ok () ∧
    namesBothKeys (vankaCheckOptions "pc_vanka_" 2 1) = true := by
  have hk1 : ['c', 'o', 'n', 's', 't', 'r', 'u', 'c', 't', '_', 'd', 'i', 'm']
      <:+: (vankaMsg "pc_vanka_").data := by decide
  have hk2 : ['c', 'o', 'n', 's', 't', 'r', 'u', 'c', 't', '_', 'c', 'o', 'd', 'i', 'm']
      <:+: (vankaMsg "pc_vanka_").data := by decide
  refine ⟨?_, by decide, rfl, by decide⟩
  by_cases hd : depth = -1 <;> by_cases hh : height = -1 <;>
    simp [vankaCheckOptions, hd, hh, namesBothKeys, hk1, hk2]

/-- Claim C5: at layer `k` the plane-0 sub-range is claimed to be
`[off + k*stride, off + k*stride + dofsPerLayer)` for every field; but the
emission loop `for k in reversed(perm)` of each field overwrites the layer
variable, so with two identical scalar fields over one base point
(`stride = 1`, `dof = 1`, `off = 0`) at layer `k = 1` of 2, the first field
selects the correct ranges `[(1,1), (1,2)]` while the second selects
`[(0,0), (0,1)]` (computed with the clobbered `k = perm[0] = 0`), and the
patch indices are `[11, 20]` instead of the prescribed `[11, 21]`. -/
theorem extruded_layer_clobbered_k :
    ((layerFieldResults [fieldA, fieldB] [0] 2 1).getD 0 ⟨[], [], [], [], 0⟩).slices
      = [(1, 1), (1, 2)] ∧
    ((layerFieldResults [fieldA, fieldB] [0] 2 1).getD 1 ⟨[], [], [], [], 0⟩).slices
      = [(0, 0), (0, 1)] ∧
    ((layerFieldResults [fieldA, fieldB] [0] 2 1).getD 1 ⟨[], [], [], [], 0⟩).slices
      ≠ [(1, 1), (1, 2)] ∧
    extrudedLayerIndices [fieldA, fieldB] [0] 2 1 = [11, 20] ∧
    ([11, 20] : List Nat) ≠ [11, 21] := by
  have h2 : ((layerFieldResults [fieldA, fieldB] [0] 2 1).getD 1
      ⟨[], [], [], [], 0⟩).slices = [(0, 0), (0, 1)] := rfl
  refine ⟨rfl, h2, ?_, rfl, by decide⟩
  rw [h2]
  decide

/-- Claim C6: with `L ≥ 2` layers and `k < L`, the planes consulted at layer
`k` are exactly `{+1, 0}` at the bottom layer, `{-1, 0}` at the top layer,
and `{-1, +1, 0}` at every intermediate layer; no other plane occurs. -/
theorem planes_selection (k L : Nat) (hL : 2 ≤ L) (hk : k < L) :
    (k = 0 → planesFor k L = [1, 0]) ∧
    (k = L - 1 → planesFor k L = [-1, 0]) ∧
    (k ≠ 0 → k ≠ L - 1 → planesFor k L = [-1, 1, 0]) ∧
    (∀ p ∈ planesFor k L, p = -1 ∨ p = 0 ∨ p = 1) := by
  refine ⟨?_, ?_, ?_, ?_⟩
  · intro h
    simp [planesFor, h]
  · intro h
    have hk0 : ¬ (k = 0) := by omega
    have hL1 : ¬ (L - 1 = 0) := by omega
    subst h
    simp [planesFor, hk0, hL1]
  · intro h0 h1
    simp [planesFor, h0, h1]
  · intro p hp
    unfold planesFor at hp
    split at hp
    · simp only [List.mem_cons, List.not_mem_nil, or_false] at hp
      omega
    · split at hp
      · simp only [List.mem_cons, List.not_mem_nil, or_false] at hp
        omega
      · simp only [List.mem_cons, List.not_mem_nil, or_false] at hp
        omega

/-- Witness for C6 at `L = 3`, `k = 1` (an intermediate layer). -/
theorem planes_selection_witness : planesFor 1 3 = [-1, 1, 0] :=
  ((planes_selection 1 3 (by decide) (by decide)).2.2.1) (by decide) (by decide)

/-- Claim C7 (counterexample): the extraction is claimed to iterate per point
and, within each point, per field; with two fields and two points the code's
order (field-outer) and the claimed order (point-outer) differ. -/
theorem dof_extraction_order_cex :
    getDofIndices dofFieldsDemo [0, 1] = [100, 101, 200, 201] ∧
    assembleSpecOrder dofFieldsDemo [0, 1] = [100, 200, 101, 201] ∧
    getDofIndices dofFieldsDemo [0, 1] ≠ assembleSpecOrder dofFieldsDemo [0, 1] := by
  decide

/-- Claim C7 (amended): patch assembly iterates per FIELD in declared field
order and, within each field, per point in point order, skipping any
`(point, field)` with dof count 0 and otherwise appending the
`value_size * count` entries of the field's local index array at the
contiguous positions starting at `value_size * offset`. -/
theorem dof_extraction_field_major (V : List DofField) (pt_array : List Nat) :
    getDofIndices V pt_array =
      V.flatMap (fun W => pt_array.flatMap (fun p => dofRanges W p)) := by
  unfold getDofIndices
  have hfun : (fun (indices : List Nat) (W : DofField) =>
      pt_array.foldl (fun indices p =>
        if W.getDof p ≤ 0 then indices
        else
          indices ++ (arange (W.getOffset p * W.valueSize)
              (W.valueSize * (W.getOffset p + W.getDof p))).map
            (fun j => W.localIses.getD j 0)) indices)
      = fun indices W => indices ++ pt_array.flatMap (fun p => dofRanges W p) := by
    funext indices W
    exact inner_foldl_eq W pt_array indices
  rw [hfun, foldl_append_flatMap, List.nil_append]

/-- Claim C8 (counterexample): the sub-ranges are claimed to be concatenated
by a stable descending-size sort (equal sizes keeping their original order);
with two equal-size plane-0 sub-ranges the code emits them in REVERSED
original order (`reversed` of a stable ascending argsort), `[10, 0]` instead
of the claimed `[0, 10]`. -/
theorem subrange_sort_ties_reversed :
    (fieldStep [0, 1] (planesFor 0 2) fieldTies 0).sdof = [0, 0, 1, 1] ∧
    (fieldStep [0, 1] (planesFor 0 2) fieldTies 0).perm.reverse = [3, 2, 1, 0] ∧
    argsortDescSpec [0, 0, 1, 1] = [2, 3, 0, 1] ∧
    (fieldStep [0, 1] (planesFor 0 2) fieldTies 0).emitted = [10, 0] ∧
    fieldEmittedSpecOrder [0, 1] (planesFor 0 2) fieldTies 0 = [0, 10] ∧
    (fieldStep [0, 1] (planesFor 0 2) fieldTies 0).emitted ≠
      fieldEmittedSpecOrder [0, 1] (planesFor 0 2) fieldTies 0 := by
  decide

/-- Claim C8 (amended): for every field of every `(seed, layer)` patch the
collected sub-ranges are concatenated in order of non-increasing size, with
ties between equal-size sub-ranges appearing in REVERSE of their original
relative order (the code reverses a stable ascending argsort). -/
theorem subrange_sort_descending (points : List Nat) (planes : List Int)
    (W : ExtrudedField) (k : Int) :
    ((fieldStep points planes W k).perm.reverse).Pairwise (fun i j =>
      (fieldStep points planes W k).sdof.getD j 0 ≤
        (fieldStep points planes W k).sdof.getD i 0 ∧
      ((fieldStep points planes W k).sdof.getD i 0 =
        (fieldStep points planes W k).sdof.getD j 0 → j ≤ i)) := by
  have hperm : (fieldStep points planes W k).perm
      = argsortStable ((fieldStep points planes W k).sdof) := rfl
  have h := argsortStable_pairwise ((fieldStep points planes W k).sdof)
  rw [← hperm] at h
  have h2 : ((fieldStep points planes W k).perm.reverse).Pairwise
      (fun i j => lexAsc ((fieldStep points planes W k).sdof) j i = true) :=
    List.pairwise_reverse.mpr h
  refine h2.imp (fun {i j} hij => ?_)
  rw [lexAsc_eq_true_iff] at hij
  omega

/-- Claim C9 (counterexample): the missing-TinyASM failure is claimed to be
raised before any patch work begins; in the trace of `initialize` with the
`tinyasm` backend unavailable, a raise occurs but NOT before the
`get_patches` call. -/
theorem tinyasm_check_not_before_patches :
    failsBeforePatchWork (initEventTrace "tinyasm" false) = false ∧
    (initEventTrace "tinyasm" false).any isRaiseEvent = true := by
  decide

/-- Claim C9 (amended): when the `tinyasm` backend is requested but
unavailable, `initialize` fails with the actionable remediation message, and
the failure is raised AFTER patch construction (`get_patches` at line 43)
has completed: the trace is the `get_patches` call followed by the raise. -/
theorem tinyasm_check_after_patches :
    initEventTrace "tinyasm" false =
      [InitEvent.callGetPatches, InitEvent.raiseMissingTinyasm tinyasmMissingMsg] ∧
    (initEventTrace "tinyasm" false).findIdx? isGetPatchesEvent = some 0 ∧
    (initEventTrace "tinyasm" false).findIdx? isRaiseEvent = some 1 := by
  decide

/-- Claim C10: a point is a seed iff it lies in the chosen stratum and passes
the ownership predicate (ghost label value `-1`), and every owned point of
the stratum seeds exactly one iteration; ghost points are filtered out before
any point-set expansion (expansion maps over `ownedSeeds`). -/
theorem owned_seeds_exactly_once (a b : Nat) (gl : Nat → Int) :
    (∀ s, s ∈ ownedSeeds a b gl ↔ (a ≤ s ∧ s < b ∧ gl s = -1)) ∧
    (∀ s, a ≤ s → s < b → gl s = -1 → (ownedSeeds a b gl).count s = 1) := by
  have hmem : ∀ s, s ∈ ownedSeeds a b gl ↔ (a ≤ s ∧ s < b ∧ gl s = -1) := by
    intro s
    unfold ownedSeeds
    rw [List.mem_filter]
    simp only [List.mem_range', beq_iff_eq]
    constructor
    · rintro ⟨⟨i, hi, rfl⟩, hg⟩
      exact ⟨by omega, by omega, hg⟩
    · rintro ⟨h1, h2, h3⟩
      exact ⟨⟨s - a, by omega, by omega⟩, h3⟩
  refine ⟨hmem, fun s h1 h2 h3 => ?_⟩
  have hnd : (ownedSeeds a b gl).Nodup := by
    unfold ownedSeeds
    exact List.Nodup.filter _ (List.nodup_range' a (b - a))
  exact List.count_eq_one_of_mem hnd ((hmem s).mpr ⟨h1, h2, h3⟩)

/-- Witness for C10 on a concrete stratum `[0, 4)` whose point 2 is a ghost. -/
theorem owned_seeds_exactly_once_witness :
    (1 ∈ ownedSeeds 0 4 glDemo ↔ (0 ≤ 1 ∧ 1 < 4 ∧ glDemo 1 = -1)) ∧
    (ownedSeeds 0 4 glDemo).count 1 = 1 :=
  ⟨(owned_seeds_exactly_once 0 4 glDemo).1 1,
   (owned_seeds_exactly_once 0 4 glDemo).2 1 (by decide) (by decide) (by decide)⟩

end AsmPatch
